import Mathlib

/-!
Shallow embedding of `parameters/cookie_parameters.go` from
`baerwang/libopenapi-validator`, together with models of the Go standard
library routines it calls (`strconv.ParseFloat`, `strconv.ParseBool`,
`strings.ToLower`, `strings.TrimSpace`, `strings.Split`) and of the
collaborators the file consumes.  A Go runtime panic (nil-pointer
dereference) is modelled as `Option.none` threaded through the call.
-/

set_option exponentiation.threshold 1100

/-! ### Character helpers -/

/-- Model of strconv's `lower(c byte) byte = c | ('x'-'X')`: set bit 5. -/
def goLowerChar (c : Char) : Char :=
  Char.ofNat (c.toNat ||| 32)

/-- Decimal digit test (`'0' <= c && c <= '9'` in Go), written as membership
in the ten digit characters, which is extensionally the same test. -/
def goIsDigit (c : Char) : Bool :=
  ['0', '1', '2', '3', '4', '5', '6', '7', '8', '9'].contains c

/-- Hexadecimal letter test used by strconv's mantissa scanner
(`'a' <= lower(c) && lower(c) <= 'f'`), as membership in the six letters. -/
def goIsHexLetter (c : Char) : Bool :=
  ['a', 'b', 'c', 'd', 'e', 'f'].contains (goLowerChar c)

/-- Model of `strings.ToLower` on the ASCII fragment (every value the
claims exercise is ASCII): uppercase ASCII letters are shifted down. -/
def goToLower (s : String) : String :=
  String.mk (s.toList.map fun c =>
    if 'A' ≤ c && c ≤ 'Z' then Char.ofNat (c.toNat + 32) else c)

/-- White-space class of `unicode.IsSpace` restricted to Latin-1, which is
what `strings.TrimSpace` strips (`\t \n \v \f \r ' '` plus U+0085, U+00A0). -/
def isGoSpace (c : Char) : Bool :=
  c == ' ' || c == '\t' || c == '\n' || c == '\x0b' || c == '\x0c' ||
    c == '\r' || c == '\x85' || c == '\xa0'

/-- Model of `strings.TrimSpace`: drop leading and trailing white space. -/
def goTrimSpace (s : String) : String :=
  String.mk (((s.toList.dropWhile isGoSpace).reverse.dropWhile isGoSpace).reverse)

/-! ### Model of `strconv.ParseBool`

`strconv.ParseBool` succeeds exactly on the twelve literal spellings in its
switch statement; everything else is a syntax error. -/

/-- Whether `strconv.ParseBool` succeeds (`err == nil`) on `s`. -/
def goParseBoolOk (s : String) : Bool :=
  ["1", "t", "T", "true", "TRUE", "True",
   "0", "f", "F", "false", "FALSE", "False"].contains s

/-! ### Model of `strconv.ParseFloat(s, 64)`

Only the success/failure verdict (`err == nil`) is relevant to the
validator.  `ParseFloat` fails on a syntax error or when the decimal value
rounds to an infinity (`ErrRange`); the scanner below mirrors strconv's
`readFloat` (signs, one optional dot, optional `e`/`p` exponent, optional
hex prefix, underscores validated separately by `underscoreOK`) and the
overflow test uses the exact rounding boundary `2^1024 - 2^970` of
float64.  Exponent saturation in strconv (at 10000) never changes the
verdict, so the exact exponent is kept. -/

/-- Parsed shape of a numeric literal: mantissa digits as one integer, the
number of digits after the dot, the explicit exponent (a power of ten for
decimal literals, of two for hex literals), and the base flag. -/
structure GoFloatParse where
  mant : Nat
  frac : Nat
  exp : Int
  hex : Bool
  deriving Repr, DecidableEq

/-- Mantissa loop of strconv's `readFloat`: consumes digits, at most one
dot, and underscores; returns the accumulated mantissa, the count of
fractional digits, whether a digit was seen, and the unconsumed rest. -/
def goMantLoop (b16 : Bool) : List Char → Nat → Nat → Bool → Bool →
    (Nat × Nat × Bool × List Char)
  | [], mant, frac, _, sawdig => (mant, frac, sawdig, [])
  | c :: rest, mant, frac, sawdot, sawdig =>
    if c == '_' then goMantLoop b16 rest mant frac sawdot sawdig
    else if c == '.' then
      if sawdot then (mant, frac, sawdig, '.' :: rest)
      else goMantLoop b16 rest mant frac true sawdig
    else if goIsDigit c then
      goMantLoop b16 rest (mant * (if b16 then 16 else 10) + (c.toNat - '0'.toNat))
        (if sawdot then frac + 1 else frac) sawdot true
    else if b16 && goIsHexLetter c then
      goMantLoop b16 rest (mant * 16 + ((goLowerChar c).toNat - 'a'.toNat + 10))
        (if sawdot then frac + 1 else frac) sawdot true
    else (mant, frac, sawdig, c :: rest)

/-- Exponent digit loop of `readFloat`: digits and underscores. -/
def goExpDigits : List Char → Nat → (Nat × List Char)
  | [], e => (e, [])
  | c :: rest, e =>
    if c == '_' then goExpDigits rest e
    else if goIsDigit c then goExpDigits rest (e * 10 + (c.toNat - '0'.toNat))
    else (e, c :: rest)

/-- Skip one optional leading sign, as strconv does in `readFloat`,
`special` and `underscoreOK`. -/
def goStripSign : List Char → List Char
  | [] => []
  | c :: r => if c == '+' || c == '-' then r else c :: r

/-- Read the optional exponent sign and return it with the rest. -/
def goExpSign : List Char → Int × List Char
  | [] => (1, [])
  | c :: q =>
    if c == '+' then (1, q)
    else if c == '-' then (-1, q)
    else (1, c :: q)

/-- Exponent part after the `e`/`p` marker: optional sign then at least one
digit, running to the end of the literal (trailing garbage fails the whole
parse because strconv checks that the scanned prefix is the full string). -/
def goParseExp (r : List Char) : Option Int :=
  let sr := goExpSign r
  match sr.2 with
  | c :: _ =>
    if goIsDigit c then
      match goExpDigits sr.2 0 with
      | (e, []) => some (sr.1 * e)
      | _ => none
    else none
  | [] => none

/-- Decimal branch of `readFloat` (after the sign, no `0x` prefix). -/
def goReadFloatDec (s : List Char) : Option GoFloatParse :=
  match goMantLoop false s 0 0 false false with
  | (mant, frac, sawdig, rest) =>
    if !sawdig then none
    else
      match rest with
      | [] => some ⟨mant, frac, 0, false⟩
      | e :: r =>
        if goLowerChar e == 'e' then
          match goParseExp r with
          | some ex => some ⟨mant, frac, ex, false⟩
          | none => none
        else none

/-- Hexadecimal branch of `readFloat` (after the sign and `0x`); the binary
exponent marked by `p` is mandatory. -/
def goReadFloatHex (s : List Char) : Option GoFloatParse :=
  match goMantLoop true s 0 0 false false with
  | (mant, frac, sawdig, rest) =>
    if !sawdig then none
    else
      match rest with
      | [] => none
      | p :: r =>
        if goLowerChar p == 'p' then
          match goParseExp r with
          | some ex => some ⟨mant, frac, ex, true⟩
          | none => none
        else none

/-- strconv's `readFloat` over the whole literal: optional sign, then the
hex branch when a `0x` prefix with at least one further character is
present, the decimal branch otherwise. -/
def goReadFloat (s : List Char) : Option GoFloatParse :=
  let s1 := goStripSign s
  match s1 with
  | c0 :: c1 :: c2 :: rest =>
    if c0 == '0' && goLowerChar c1 == 'x' then goReadFloatHex (c2 :: rest)
    else goReadFloatDec s1
  | _ => goReadFloatDec s1

/-- Inner loop of strconv's `underscoreOK`: `saw` is `'0'` after a digit,
`'_'` after an underscore, `'!'` after any other character, `'^'` at the
start; underscores must sit between digits. -/
def goUnderscoreLoop (hex : Bool) : List Char → Char → Bool
  | [], saw => !(saw == '_')
  | c :: rest, saw =>
    if goIsDigit c || (hex && goIsHexLetter c) then goUnderscoreLoop hex rest '0'
    else if c == '_' then
      if saw == '0' then goUnderscoreLoop hex rest '_' else false
    else if saw == '_' then false
    else goUnderscoreLoop hex rest '!'

/-- strconv's `underscoreOK`: skip the sign, treat a `0x` prefix as a
digit, then run the loop. -/
def goUnderscoreOK (s : List Char) : Bool :=
  let s1 := goStripSign s
  match s1 with
  | c0 :: c1 :: rest =>
    if c0 == '0' && goLowerChar c1 == 'x' then goUnderscoreLoop true rest '0'
    else goUnderscoreLoop false s1 '^'
  | _ => goUnderscoreLoop false s1 '^'

/-- strconv's `special`: case-insensitive `inf`/`infinity` with an optional
sign, and unsigned case-insensitive `nan` (the sign branch falls through to
the infinity test only, so a signed `nan` is rejected). -/
def goSpecialFloat (s : List Char) : Bool :=
  s.map goLowerChar == "inf".toList ||
  s.map goLowerChar == "infinity".toList ||
  s.map goLowerChar == "nan".toList ||
  (match s with
   | c :: r =>
     (c == '+' || c == '-') &&
       (r.map goLowerChar == "inf".toList || r.map goLowerChar == "infinity".toList)
   | [] => false)

/-- Whether the exact rational value of the literal rounds to an infinity
in float64, which is when `ParseFloat` reports `ErrRange`: the rounding
boundary is `2^1024 - 2^970` (half an ulp above the largest finite
float64).  A zero mantissa never overflows. -/
def goFloatOverflows (fp : GoFloatParse) : Bool :=
  if fp.mant == 0 then false
  else
    let B : Nat := 2 ^ 1024 - 2 ^ 970
    if fp.hex then
      let e : Int := fp.exp - 4 * (fp.frac : Int)
      if 0 ≤ e then decide (B ≤ fp.mant * 2 ^ e.toNat)
      else decide (B * 2 ^ (-e).toNat ≤ fp.mant)
    else
      let e : Int := fp.exp - (fp.frac : Int)
      if 0 ≤ e then decide (B ≤ fp.mant * 10 ^ e.toNat)
      else decide (B * 10 ^ (-e).toNat ≤ fp.mant)

/-- Whether `strconv.ParseFloat(s, 64)` succeeds (`err == nil`). -/
def goParseFloatOk (s : String) : Bool :=
  goSpecialFloat s.toList ||
    (match goReadFloat s.toList with
     | some fp => goUnderscoreOK s.toList && !goFloatOverflows fp
     | none => false)

/-- A literal that scans as a number and stays inside float64's finite
range (no `ErrRange`). -/
def goFloatInRange (s : String) : Bool :=
  match goReadFloat s.toList with
  | some fp => !goFloatOverflows fp
  | none => false

/-! ### Data model

Only the fields `ValidateCookieParams` reads are modelled.  `GoItems`
mirrors the `Items *DynamicValue[*SchemaProxy, bool]` field of
`base.Schema`: a nil pointer, a schema (`IsA`, i.e. `N == 0`), or a
boolean schema.  A schema's `Type` is a `[]string` in Go, so type tags
stay plain strings and unknown tags fall through the switch. -/

mutual

/-- The fragment of `base.Schema` read by the validator: `Type`, `Enum`
(`nil`-able, entries modelled by their string values, which is what the
`==` comparison against the trimmed cookie value can match), `Items`. -/
inductive GoSchema where
  | mk : List String → Option (List String) → GoItems → GoSchema

/-- State of `sch.Items`: nil pointer, schema (`IsA()`), or boolean. -/
inductive GoItems where
  | nil : GoItems
  | schema : GoSchema → GoItems
  | boolean : Bool → GoItems

end

/-- The `Type` field of the schema. -/
def GoSchema.type : GoSchema → List String
  | .mk t _ _ => t

/-- The `Enum` field of the schema (`none` models a nil slice). -/
def GoSchema.enum : GoSchema → Option (List String)
  | .mk _ e _ => e

/-- The `Items` field of the schema. -/
def GoSchema.items : GoSchema → GoItems
  | .mk _ _ i => i

/-- The fragment of `base.Parameter` read by the validator.  `schema` is
the result of `p.Schema.Schema()`; `none` models that either the proxy or
the resolved schema is a nil pointer.  `explode` models the `*bool`. -/
structure Param where
  name : String
  In : String
  schema : Option GoSchema
  explode : Option Bool

/-- `Parameter.IsExploded` from libopenapi: nil explode pointer means not
exploded, otherwise the pointed-to boolean. -/
def Param.IsExploded (p : Param) : Bool :=
  p.explode.getD false

/-- One cookie delivered by `request.Cookies()`. -/
structure Cookie where
  name : String
  value : String

/-- The fragment of `*http.Request` the validator reads: the parsed cookie
list (in header order) plus the routing inputs consumed opaquely by the
path resolver. -/
structure Request where
  method : String
  url : String
  cookies : List Cookie

/-- Opaque handle for the `*v3.PathItem` passed from `paths.FindPath` to
`helpers.ExtractParamsForOperation`. -/
structure PathItem where
  tag : Nat

/-- Failure kinds of the per-type checkers (spec section 3). -/
inductive Reason where
  | NotNumber
  | NotBoolean
  | NotInEnum
  | ArrayItemMismatch
  | ObjectSchemaMismatch
  deriving Repr, DecidableEq

/-- A `*errors.ValidationError`: either a path-resolution error or a
parameter violation built by one of the error factories, which receive the
parameter, the offending (lower-cased) value and the schema. -/
inductive ValidationError where
  | resolver : String → ValidationError
  | violation : Param → String → Reason → GoSchema → ValidationError

/-- The collaborators consumed opaquely (spec section 6): `paths.FindPath`
(the unread third return value is dropped; `none` in either component
models a nil pointer / nil slice), `helpers.ExtractParamsForOperation`,
and `schemas.ValidateParameterSchema` as invoked for non-exploded object
cookies.  The Go functions are pure reads of the request and the document,
so the document is represented by this behaviour record. -/
structure Externals where
  findPath : Request → Option PathItem × Option (List ValidationError)
  extractParamsForOperation : Request → PathItem → List Param
  validateParameterSchema : GoSchema → List (String × String) → String → List ValidationError

/-- The receiver `*paramValidator`: the document (as its behaviour) plus
the mutable `errors` field written on path-resolution failure. -/
structure ParamValidator where
  ext : Externals
  errors : Option (List ValidationError)

/-! ### Spec-modelled collaborators that live in this repository

`helpers.ConstructMapFromCSV` and `ValidateCookieArray` are repository
code that sits outside `parameters/cookie_parameters.go`; they are
modelled from the spec's words. -/

/-- Accumulator pass of `goSplitComma`. -/
def splitCommaAux : List Char → List Char → List String
  | [], acc => [String.mk acc.reverse]
  | c :: rest, acc =>
    if c == ',' then String.mk acc.reverse :: splitCommaAux rest []
    else splitCommaAux rest (c :: acc)

/-- Model of `strings.Split(s, ",")`: the empty string yields `[""]`, and
consecutive commas yield empty fields. -/
def goSplitComma (s : String) : List String :=
  splitCommaAux s.toList []

/-- Insert a key/value pair, later values overwriting earlier ones for the
same key while keeping first-encounter order. -/
def upsertCSV (m : List (String × String)) (k v : String) : List (String × String) :=
  if m.any (fun kv => kv.1 == k) then
    m.map (fun kv => if kv.1 == k then (k, v) else kv)
  else m ++ [(k, v)]

/-- Sequential pairing of the comma-split entries; an odd trailing entry is
dropped silently. -/
def pairUpCSV : List String → List (String × String) → List (String × String)
  | k :: v :: rest, m => pairUpCSV rest (upsertCSV m k v)
  | _, m => m

/-- Modelled from the spec: `helpers.ConstructMapFromCSV` (spec section
4.1) is not among the modelled sources; the raw string is split on commas
into a flat sequence, entries are paired sequentially into key/value
entries, an odd trailing key is dropped, and duplicate keys overwrite. -/
def constructMapFromCSV (value : String) : List (String × String) :=
  pairUpCSV (goSplitComma value) []

/-- One declared type tag of an array-item schema checked against one item
(spec section 4.2 table, reused recursively per section 4.3): numeric and
boolean tags use the parse checks, a string tag checks the declared enum,
a nested array tag splits the item again and recurses into the nested item
schema; an object tag on an item is delegated to the external structural
validator and contributes no item-level failure here.  The fuel argument
only bounds the nesting depth; `specItemFails` seeds it with the size of
the schema, which dominates its depth, so the bound is never hit. -/
def specItemFailsFuel : Nat → GoSchema → String → Bool
  | 0, _, _ => false
  | n + 1, sch, item =>
    sch.type.any fun ty =>
      if ty == "integer" || ty == "number" then !goParseFloatOk item
      else if ty == "boolean" then !goParseBoolOk item
      else if ty == "string" then
        match sch.enum with
        | some es => !(es.contains (goTrimSpace item))
        | none => false
      else if ty == "array" then
        match sch.items with
        | GoItems.schema isch =>
          (goSplitComma item).any fun it => specItemFailsFuel n isch it
        | _ => false
      else false

/-- Nesting depth of a schema along its `items` chain. -/
def schemaDepth : GoSchema → Nat
  | .mk _ _ (GoItems.schema s) => schemaDepth s + 1
  | .mk _ _ _ => 1

/-- Whether an item fails its item schema: some declared tag rejects it. -/
def specItemFails (sch : GoSchema) (item : String) : Bool :=
  specItemFailsFuel (schemaDepth sch) sch item

/-- Modelled from the spec: `ValidateCookieArray` (called at
`cookie_parameters.go` line 80, defined elsewhere in the repository) per
spec section 4.3: the raw value is decomposed into comma-separated items
and each item is checked against the nested item schema; any failing item
contributes one `ArrayItemMismatch` violation referencing that item. -/
def ValidateCookieArray (sch : GoSchema) (p : Param) (value : String) :
    List ValidationError :=
  match sch.items with
  | GoItems.schema itemSch =>
    ((goSplitComma value).map fun item =>
      if specItemFails itemSch item then
        [ValidationError.violation p item Reason.ArrayItemMismatch itemSch]
      else []).flatten
  | _ => []

/-! ### The validator core (`ValidateCookieParams`, lines 20-111)

`Option.none` threaded through the loops models a Go panic: the nil
`sch.Type` dereference of line 41 and the nil `sch.Items.IsA()`
dereference of line 78 abort the whole call without a return value. -/

/-- One arm of the `switch ty` of lines 44-101 for a matched cookie value.
The `if sch != nil` guard inside the object arm is dead code at this
point, because reaching the switch already dereferenced `sch`. -/
def checkTag (ext : Externals) (p : Param) (sch : GoSchema) (value : String)
    (ty : String) : Option (List ValidationError) :=
  if ty == "integer" || ty == "number" then
    some (if goParseFloatOk value then []
      else [ValidationError.violation p (goToLower value) Reason.NotNumber sch])
  else if ty == "boolean" then
    some (if goParseBoolOk value then []
      else [ValidationError.violation p (goToLower value) Reason.NotBoolean sch])
  else if ty == "object" then
    some (if p.IsExploded then []
      else ext.validateParameterSchema sch (constructMapFromCSV value) p.name)
  else if ty == "array" then
    if p.IsExploded then some []
    else
      match sch.items with
      | GoItems.nil => none
      | GoItems.schema _ => some (ValidateCookieArray sch p value)
      | GoItems.boolean _ => some []
  else if ty == "string" then
    match sch.enum with
    | none => some []
    | some es =>
      some (if es.contains (goTrimSpace value) then []
        else [ValidationError.violation p (goToLower value) Reason.NotInEnum sch])
  else some []

/-- The `for _, ty := range pType` loop of line 43: every declared tag is
checked and the violations are appended in tag order. -/
def dispatchTags (ext : Externals) (p : Param) (sch : GoSchema) (value : String) :
    List String → Option (List ValidationError)
  | [] => some []
  | ty :: rest =>
    match checkTag ext p sch value ty with
    | none => none
    | some vs =>
      match dispatchTags ext p sch value rest with
      | none => none
      | some vrest => some (vs ++ vrest)

/-- Lines 37-102 for one matched cookie: resolve the schema pointer, then
dereference it for its `Type` list (the nil dereference of line 41 when no
schema is declared) and dispatch every declared tag. -/
def checkCookie (ext : Externals) (p : Param) (value : String) :
    Option (List ValidationError) :=
  match p.schema with
  | none => none
  | some sch => dispatchTags ext p sch value sch.type

/-- The `for _, cookie := range request.Cookies()` loop of line 34: only
cookies whose name equals the parameter name byte-for-byte are checked. -/
def cookieLoop (ext : Externals) (p : Param) : List Cookie →
    Option (List ValidationError)
  | [] => some []
  | c :: rest =>
    if c.name == p.name then
      match checkCookie ext p c.value with
      | none => none
      | some vs =>
        match cookieLoop ext p rest with
        | none => none
        | some vrest => some (vs ++ vrest)
    else cookieLoop ext p rest

/-- The `for _, p := range params` loop of line 32: only parameters with
`In == "cookie"` are considered. -/
def paramLoop (ext : Externals) (cookies : List Cookie) : List Param →
    Option (List ValidationError)
  | [] => some []
  | p :: rest =>
    if p.In == "cookie" then
      match cookieLoop ext p cookies with
      | none => none
      | some vs =>
        match paramLoop ext cookies rest with
        | none => none
        | some vrest => some (vs ++ vrest)
    else paramLoop ext cookies rest

/-- `(v *paramValidator) ValidateCookieParams(request)`: the returned pair
is the validator after the call (its `errors` field is overwritten on
path-resolution failure) and the Go return value, `none` standing for a
panic.  On failure the Go function returns `false` with the resolver's
slice (a nil slice becomes the empty list); on success it returns `true`
with a nil slice exactly when no violation was collected. -/
def ValidateCookieParams (v : ParamValidator) (request : Request) :
    ParamValidator × Option (Bool × List ValidationError) :=
  let fp := v.ext.findPath request
  match fp.1, fp.2 with
  | none, errs => ({ v with errors := errs }, some (false, errs.getD []))
  | some _, some es => ({ v with errors := some es }, some (false, es))
  | some pi, none =>
    match paramLoop v.ext request.cookies
        (v.ext.extractParamsForOperation request pi) with
    | none => (v, none)
    | some ves =>
      if ves.length > 0 then (v, some (false, ves)) else (v, some (true, []))

/-! ### The numeric-literal pattern of the spec

Spec section 8 quantifies over raw values matching
`-?[0-9]+(.[0-9]+)?([eE][-+]?[0-9]+)?` anchored at both ends; the matcher
below follows the spec's regex, not the source, and is compared with the
source-derived `goParseFloatOk`. -/

/-- Consume a maximal run of decimal digits. -/
def dropDigits : List Char → List Char
  | [] => []
  | c :: r => if goIsDigit c then dropDigits r else c :: r

/-- Require at least one digit, then consume the maximal digit run. -/
def digits1 : List Char → Option (List Char)
  | [] => none
  | c :: r => if goIsDigit c then some (dropDigits r) else none

/-- Strip the regex's optional leading minus sign. -/
def stripNeg : List Char → List Char
  | [] => []
  | c :: r => if c == '-' then r else c :: r

/-- Strip the regex's optional exponent sign (`[-+]?`). -/
def stripPM : List Char → List Char
  | [] => []
  | c :: r => if c == '+' || c == '-' then r else c :: r

/-- The regex's optional fractional group `(.[0-9]+)?`. -/
def fracTail : List Char → Option (List Char)
  | [] => some []
  | c :: r => if c == '.' then digits1 r else some (c :: r)

/-- The regex's optional exponent group `([eE][-+]?[0-9]+)?`, anchored at
the end of the value. -/
def expTailOk : List Char → Bool
  | [] => true
  | e :: r =>
    if e == 'e' || e == 'E' then
      match digits1 (stripPM r) with
      | some [] => true
      | _ => false
    else false

/-- Whether `s` matches the spec's anchored numeric regex. -/
def specNumberRegexMatch (s : String) : Bool :=
  match digits1 (stripNeg s.toList) with
  | none => false
  | some r1 =>
    match fracTail r1 with
    | none => false
    | some r3 => expTailOk r3

/-! ### Concrete fixtures for the theorems -/

/-- A document behaviour whose resolver always succeeds and yields the
given declared parameter list. -/
def extOf (ps : List Param) : Externals :=
  { findPath := fun _ => (some ⟨0⟩, none)
    extractParamsForOperation := fun _ _ => ps
    validateParameterSchema := fun _ _ _ => [] }

/-- A fresh validator over `extOf ps` with an empty `errors` field. -/
def vOf (ps : List Param) : ParamValidator :=
  ⟨extOf ps, none⟩

/-- A request carrying one cookie. -/
def reqWith (n v : String) : Request :=
  ⟨"GET", "/a", [⟨n, v⟩]⟩

/-- A cookie parameter with no declared schema. -/
def pNoSchema : Param :=
  ⟨"session", "cookie", none, none⟩

/-- A boolean-typed schema and its cookie parameter. -/
def schBool : GoSchema := .mk ["boolean"] none .nil

/-- Cookie parameter `flag` declared with `schBool`. -/
def pBool : Param := ⟨"flag", "cookie", some schBool, none⟩

/-- A schema declaring both `integer` and `boolean`. -/
def schIntBool : GoSchema := .mk ["integer", "boolean"] none .nil

/-- Cookie parameter `z` declared with `schIntBool`. -/
def pIntBool : Param := ⟨"z", "cookie", some schIntBool, none⟩

/-- A number-typed schema and its cookie parameter. -/
def schNum : GoSchema := .mk ["number"] none .nil

/-- Cookie parameter `n` declared with `schNum`. -/
def pNum : Param := ⟨"n", "cookie", some schNum, none⟩

/-- An array-typed schema with a nil `Items` pointer. -/
def schArrNilItems : GoSchema := .mk ["array"] none .nil

/-- Non-exploded cookie parameter declared with `schArrNilItems`. -/
def pArrNilItems : Param := ⟨"ids", "cookie", some schArrNilItems, none⟩

/-- Exploded cookie parameter declared with `schArrNilItems`. -/
def pArrNilItemsExploded : Param := ⟨"ids", "cookie", some schArrNilItems, some true⟩

/-- An array-typed schema whose `Items` is a boolean schema. -/
def schArrBoolItems : GoSchema := .mk ["array"] none (.boolean true)

/-- Non-exploded cookie parameter declared with `schArrBoolItems`. -/
def pArrBoolItems : Param := ⟨"ids", "cookie", some schArrBoolItems, none⟩

/-- An integer-typed item schema. -/
def schInt : GoSchema := .mk ["integer"] none .nil

/-- An array-typed schema with `schInt` items. -/
def schArrInt : GoSchema := .mk ["array"] none (.schema schInt)

/-- Non-exploded cookie parameter declared with `schArrInt`. -/
def pArrInt : Param := ⟨"ids", "cookie", some schArrInt, none⟩

/-- A string-typed schema with enum `["red","green","blue"]`. -/
def schEnumRGB : GoSchema := .mk ["string"] (some ["red", "green", "blue"]) .nil

/-- Cookie parameter `col` declared with `schEnumRGB`. -/
def pEnum : Param := ⟨"col", "cookie", some schEnumRGB, none⟩

/-- A document behaviour whose resolver always fails with one error. -/
def extFail : Externals :=
  { findPath := fun _ => (none, some [.resolver "operation not found"])
    extractParamsForOperation := fun _ _ => []
    validateParameterSchema := fun _ _ _ => [] }

/-- A fresh validator over the failing resolver. -/
def vFail : ParamValidator :=
  ⟨extFail, none⟩

/-! ### Claim theorems -/

/-- C1: the claim states that a cookie parameter with no declared schema
always completes normally with zero violations.  The code instead
dereferences the nil schema pointer at `pType := sch.Type` (line 41) as
soon as a cookie with the parameter's name is present, so the call panics
(`none`) for every cookie value. -/
theorem c1_nil_schema_panics (val : String) :
    (ValidateCookieParams (vOf [pNoSchema]) (reqWith "session" val)).2 = none := rfl

/-- C8: the claim groups three skip conditions for the array tag.  An
exploded parameter and a boolean item schema are indeed skipped with no
violation, but with a nil `Items` pointer and a non-exploded parameter the
call dereferences nil in `sch.Items.IsA()` (line 78) and panics instead of
completing normally. -/
theorem c8_array_skip_and_panic :
    (ValidateCookieParams (vOf [pArrNilItems]) (reqWith "ids" "1,2")).2 = none ∧
    ValidateCookieParams (vOf [pArrNilItemsExploded]) (reqWith "ids" "1,2") =
      (vOf [pArrNilItemsExploded], some (true, [])) ∧
    ValidateCookieParams (vOf [pArrBoolItems]) (reqWith "ids" "1,2") =
      (vOf [pArrBoolItems], some (true, [])) :=
  ⟨rfl, rfl, rfl⟩

/-- C9: a non-exploded array parameter with integer items accepts
`"1,2,3"`, and `"1,x,3"` / `"1,two,3"` each yield exactly one
`ArrayItemMismatch` violation referencing the failing item, making the
end-to-end outcome `(false, one violation)`. -/
theorem c9_array_integer_items :
    ValidateCookieParams (vOf [pArrInt]) (reqWith "ids" "1,2,3") =
      (vOf [pArrInt], some (true, [])) ∧
    ValidateCookieParams (vOf [pArrInt]) (reqWith "ids" "1,x,3") =
      (vOf [pArrInt], some (false,
        [ValidationError.violation pArrInt "x" Reason.ArrayItemMismatch schInt])) ∧
    ValidateCookieParams (vOf [pArrInt]) (reqWith "ids" "1,two,3") =
      (vOf [pArrInt], some (false,
        [ValidationError.violation pArrInt "two" Reason.ArrayItemMismatch schInt])) :=
  ⟨rfl, rfl, rfl⟩

/-- C3 counterexample: the claim states the call leaves the validator's
state unchanged, but on path-resolution failure `v.errors = errs`
(line 25) overwrites the receiver's `errors` field, so the validator after
the call differs from the validator before it. -/
theorem c3_counterexample :
    (ValidateCookieParams vFail (reqWith "a" "b")).1 ≠ vFail := fun h =>
  Option.noConfusion (congrArg ParamValidator.errors h)

/-- C4 counterexample: `"tRUE"` equals `"true"` under case-insensitive
comparison, yet `strconv.ParseBool` accepts only the twelve exact
spellings, so the boolean-typed check adds one `NotBoolean` violation
(recording the lower-cased value) where the claim says it adds none. -/
theorem c4_counterexample :
    goToLower "tRUE" = "true" ∧
    ValidateCookieParams (vOf [pBool]) (reqWith "flag" "tRUE") =
      (vOf [pBool], some (false,
        [ValidationError.violation pBool "true" Reason.NotBoolean schBool])) :=
  ⟨rfl, rfl⟩

/-- C4 amended: the boolean-typed check adds no violation exactly for the
twelve spellings `1 t T true TRUE True 0 f F false FALSE False`; every
other value (such as `"maybe"` or `"tRUE"`) yields exactly one
`NotBoolean` violation recording the lower-cased value. -/
theorem c4_amended_boolean_spellings (value : String) :
    ValidateCookieParams (vOf [pBool]) (reqWith "flag" value) =
      (vOf [pBool], some
        (if ["1", "t", "T", "true", "TRUE", "True",
             "0", "f", "F", "false", "FALSE", "False"].contains value then
          (true, ([] : List ValidationError))
         else (false, [ValidationError.violation pBool (goToLower value)
            Reason.NotBoolean schBool]))) := by
  cases hb : goParseBoolOk value with
  | false =>
    rw [show (["1", "t", "T", "true", "TRUE", "True",
      "0", "f", "F", "false", "FALSE", "False"].contains value) = false from hb]
    simp [ValidateCookieParams, vOf, extOf, reqWith, paramLoop, cookieLoop,
      checkCookie, dispatchTags, checkTag, pBool, schBool, GoSchema.type, hb]
  | true =>
    rw [show (["1", "t", "T", "true", "TRUE", "True",
      "0", "f", "F", "false", "FALSE", "False"].contains value) = true from hb]
    simp [ValidateCookieParams, vOf, extOf, reqWith, paramLoop, cookieLoop,
      checkCookie, dispatchTags, checkTag, pBool, schBool, GoSchema.type, hb]

/-- C5: validation is exhaustive, not fail-fast: whenever a tag's check
returns violations and the remaining tags return violations, the whole
dispatch returns their concatenation (processing always continues), and a
value failing both declared tags of `["integer","boolean"]` yields exactly
two violations, collected before the outcome is produced. -/
theorem c5_exhaustive :
    (∀ (ext : Externals) (p : Param) (sch : GoSchema) (value ty : String)
        (rest : List String) (vs vrest : List ValidationError),
        checkTag ext p sch value ty = some vs →
        dispatchTags ext p sch value rest = some vrest →
        dispatchTags ext p sch value (ty :: rest) = some (vs ++ vrest)) ∧
    ValidateCookieParams (vOf [pIntBool]) (reqWith "z" "zzz") =
      (vOf [pIntBool], some (false,
        [ValidationError.violation pIntBool "zzz" Reason.NotNumber schIntBool,
         ValidationError.violation pIntBool "zzz" Reason.NotBoolean schIntBool])) := by
  refine ⟨?_, rfl⟩
  intro ext p sch value ty rest vs vrest h1 h2
  simp [dispatchTags, h1, h2]

/-- C5 witness: the continuation property instantiated at the concrete
two-tag schema, with both hypotheses discharged by evaluation. -/
theorem c5_exhaustive_witness :
    dispatchTags (extOf []) pIntBool schIntBool "zzz" ["integer", "boolean"] =
      some ([ValidationError.violation pIntBool "zzz" Reason.NotNumber schIntBool] ++
        [ValidationError.violation pIntBool "zzz" Reason.NotBoolean schIntBool]) :=
  c5_exhaustive.1 (extOf []) pIntBool schIntBool "zzz" "integer" ["boolean"]
    [ValidationError.violation pIntBool "zzz" Reason.NotNumber schIntBool]
    [ValidationError.violation pIntBool "zzz" Reason.NotBoolean schIntBool] rfl rfl

/-- C6: a string-typed check with no declared enum never adds a violation;
with a declared enum it adds no violation exactly when the whitespace-
trimmed raw value equals (case-sensitively) one of the entries, otherwise
one `NotInEnum` violation recording the lower-cased value; with enum
`["red","green","blue"]`, `" red "` passes while `"Red"` and `"purple"`
each add exactly one violation. -/
theorem c6_enum_membership :
    (∀ (ext : Externals) (p : Param) (t : List String) (it : GoItems)
        (value : String),
        checkTag ext p (GoSchema.mk t none it) value "string" = some []) ∧
    (∀ (ext : Externals) (p : Param) (t : List String) (it : GoItems)
        (es : List String) (value : String),
        checkTag ext p (GoSchema.mk t (some es) it) value "string" =
          some (if es.contains (goTrimSpace value) then []
            else [ValidationError.violation p (goToLower value) Reason.NotInEnum
              (GoSchema.mk t (some es) it)])) ∧
    ValidateCookieParams (vOf [pEnum]) (reqWith "col" " red ") =
      (vOf [pEnum], some (true, [])) ∧
    ValidateCookieParams (vOf [pEnum]) (reqWith "col" "Red") =
      (vOf [pEnum], some (false,
        [ValidationError.violation pEnum "red" Reason.NotInEnum schEnumRGB])) ∧
    ValidateCookieParams (vOf [pEnum]) (reqWith "col" "purple") =
      (vOf [pEnum], some (false,
        [ValidationError.violation pEnum "purple" Reason.NotInEnum schEnumRGB])) :=
  ⟨fun _ _ _ _ _ => rfl, fun _ _ _ _ _ _ => rfl, rfl, rfl, rfl⟩

/-- C7 counterexample: `"1e999"` matches the spec's numeric regex, yet
`strconv.ParseFloat` reports a range error (the value rounds past the
largest float64), so the number-typed check adds one `NotNumber`
violation where the claim says it adds none. -/
theorem c7_counterexample :
    specNumberRegexMatch "1e999" = true ∧
    goParseFloatOk "1e999" = false ∧
    ValidateCookieParams (vOf [pNum]) (reqWith "n" "1e999") =
      (vOf [pNum], some (false,
        [ValidationError.violation pNum "1e999" Reason.NotNumber schNum])) :=
  ⟨rfl, rfl, rfl⟩

/-- C10: only cookies whose name equals the parameter's name byte-for-byte
are checked (the loop is invariant under removing non-matching cookies),
every matching cookie contributes its own violations independently (the
loop distributes over concatenation), and two same-named bad cookies each
yield a violation while a case-differing name is ignored. -/
theorem c10_cookie_name_matching :
    (∀ (ext : Externals) (p : Param) (cs : List Cookie),
        cookieLoop ext p cs =
          cookieLoop ext p (cs.filter fun c => c.name == p.name)) ∧
    (∀ (ext : Externals) (p : Param) (cs1 cs2 : List Cookie),
        cookieLoop ext p (cs1 ++ cs2) =
          (cookieLoop ext p cs1).bind fun a =>
            (cookieLoop ext p cs2).map fun b => a ++ b) ∧
    ValidateCookieParams (vOf [pBool])
        ⟨"GET", "/a", [⟨"flag", "bad1"⟩, ⟨"FLAG", "bad2"⟩, ⟨"flag", "bad3"⟩]⟩ =
      (vOf [pBool], some (false,
        [ValidationError.violation pBool "bad1" Reason.NotBoolean schBool,
         ValidationError.violation pBool "bad3" Reason.NotBoolean schBool])) := by
  refine ⟨?_, ?_, rfl⟩
  · intro ext p cs
    induction cs with
    | nil => rfl
    | cons c t ih =>
      cases h : c.name == p.name with
      | false => simp [cookieLoop, List.filter_cons, h, ih]
      | true => simp [cookieLoop, List.filter_cons, h, ih]
  · intro ext p cs1 cs2
    induction cs1 with
    | nil =>
      cases h2 : cookieLoop ext p cs2 with
      | none => simp [cookieLoop, h2]
      | some b => simp [cookieLoop, h2]
    | cons c t ih =>
      cases h : c.name == p.name with
      | false => simp [cookieLoop, h, ih]
      | true =>
        cases hc : checkCookie ext p c.value with
        | none => simp [cookieLoop, h, hc]
        | some vs =>
          cases ht : cookieLoop ext p t with
          | none =>
            rw [ht] at ih
            simp [cookieLoop, h, hc, ht, ih]
          | some a =>
            rw [ht] at ih
            cases h2 : cookieLoop ext p cs2 with
            | none => simp [cookieLoop, h, hc, ht, ih, h2]
            | some b => simp [cookieLoop, h, hc, ht, ih, h2, List.append_assoc]

/-- Helper: the cookie loop yields no violations when no cookie name
matches the parameter. -/
theorem cookieLoop_no_match (ext : Externals) (p : Param) :
    ∀ cs : List Cookie, (∀ c ∈ cs, (c.name == p.name) = false) →
      cookieLoop ext p cs = some [] := by
  intro cs h
  induction cs with
  | nil => rfl
  | cons c t ih =>
    have hc := h c (by simp)
    simp only [cookieLoop, hc, Bool.false_eq_true, if_false]
    exact ih (fun x hx => h x (by simp [hx]))

/-- Helper: the parameter loop yields no violations when no declared
cookie parameter matches any request cookie. -/
theorem paramLoop_no_match (ext : Externals) (cookies : List Cookie) :
    ∀ ps : List Param,
      (∀ p ∈ ps, (p.In == "cookie") = true →
        ∀ c ∈ cookies, (c.name == p.name) = false) →
      paramLoop ext cookies ps = some [] := by
  intro ps h
  induction ps with
  | nil => rfl
  | cons p t ih =>
    have iht := ih (fun q hq => h q (by simp [hq]))
    cases hin : p.In == "cookie" with
    | false => simpa [paramLoop, hin] using iht
    | true =>
      have hcl := cookieLoop_no_match ext p cookies (h p (by simp) hin)
      simp [paramLoop, hin, hcl, iht]

/-- C2: under the resolver's contract (a failed resolution always carries
at least one violation, spec section 6), the returned flag is `true`
exactly when the returned violation list is empty; a resolver failure is
reported as `(false, the resolver's violations)`; and a request none of
whose cookie parameters matches any cookie is reported as passed. -/
theorem c2_passed_iff_empty (v : ParamValidator) (r : Request)
    (hres : (v.ext.findPath r).1 = none → (v.ext.findPath r).2 ≠ none)
    (hfail : ∀ es, (v.ext.findPath r).2 = some es → es ≠ []) :
    (∀ passed ves, (ValidateCookieParams v r).2 = some (passed, ves) →
      (passed = true ↔ ves = [])) ∧
    (∀ es, (v.ext.findPath r).2 = some es →
      (ValidateCookieParams v r).2 = some (false, es)) ∧
    (∀ pi, (v.ext.findPath r).1 = some pi → (v.ext.findPath r).2 = none →
      (∀ p, p ∈ v.ext.extractParamsForOperation r pi → (p.In == "cookie") = true →
        ∀ c, c ∈ r.cookies → (c.name == p.name) = false) →
      (ValidateCookieParams v r).2 = some (true, [])) := by
  rcases hfp : v.ext.findPath r with ⟨pio, eo⟩
  rw [hfp] at hres hfail
  refine ⟨?_, ?_, ?_⟩
  · intro passed ves heq
    cases pio with
    | none =>
      cases eo with
      | none => exact absurd rfl (hres rfl)
      | some es =>
        have hne := hfail es rfl
        simp only [ValidateCookieParams, hfp, Option.getD_some] at heq
        simp only [Option.some.injEq, Prod.mk.injEq] at heq
        obtain ⟨hp, hv⟩ := heq
        subst hp
        subst hv
        constructor
        · intro habs
          exact absurd habs (by simp)
        · intro hves
          exact absurd hves hne
    | some pi =>
      cases eo with
      | some es =>
        have hne := hfail es rfl
        simp only [ValidateCookieParams, hfp] at heq
        simp only [Option.some.injEq, Prod.mk.injEq] at heq
        obtain ⟨hp, hv⟩ := heq
        subst hp
        subst hv
        constructor
        · intro habs
          exact absurd habs (by simp)
        · intro hves
          exact absurd hves hne
      | none =>
        simp only [ValidateCookieParams, hfp] at heq
        cases hpl : paramLoop v.ext r.cookies
            (v.ext.extractParamsForOperation r pi) with
        | none =>
          rw [hpl] at heq
          exact absurd heq (by simp)
        | some ves' =>
          rw [hpl] at heq
          rcases Nat.eq_zero_or_pos ves'.length with hz | hpos
          · have hnil : ves' = [] := List.length_eq_zero.mp hz
            subst hnil
            simp only [List.length_nil, gt_iff_lt, Nat.lt_irrefl, if_false] at heq
            simp only [Option.some.injEq, Prod.mk.injEq] at heq
            obtain ⟨hp, hv⟩ := heq
            subst hp
            subst hv
            simp
          · simp only [gt_iff_lt, hpos, if_true] at heq
            simp only [Option.some.injEq, Prod.mk.injEq] at heq
            obtain ⟨hp, hv⟩ := heq
            subst hp
            subst hv
            have hne : ves' ≠ [] := by
              intro hnil
              rw [hnil] at hpos
              exact Nat.lt_irrefl 0 hpos
            constructor
            · intro habs
              exact absurd habs (by simp)
            · intro hves
              exact absurd hves hne
  · intro es heo
    have heo' : eo = some es := heo
    subst heo'
    cases pio with
    | none => simp [ValidateCookieParams, hfp]
    | some pi => simp [ValidateCookieParams, hfp]
  · intro pi hpi heo hnomatch
    have hpi' : pio = some pi := hpi
    have heo' : eo = none := heo
    subst hpi'
    subst heo'
    have hpl := paramLoop_no_match v.ext r.cookies
      (v.ext.extractParamsForOperation r pi) hnomatch
    simp [ValidateCookieParams, hfp, hpl]

/-- C2 witness: a resolvable request with no declared parameters passes
with the empty violation list. -/
theorem c2_witness :
    (ValidateCookieParams (vOf []) (reqWith "a" "b")).2 = some (true, []) :=
  (c2_passed_iff_empty (vOf []) (reqWith "a" "b")
      (fun h1 => absurd h1 (by simp [vOf, extOf]))
      (fun es h => absurd h (by simp [vOf, extOf]))).2.2 ⟨0⟩ rfl rfl
    (fun p hp => absurd hp (by simp [vOf, extOf]))

/-- C3 amended: the call is deterministic in its inputs and its result
depends only on the document and the request, not on the validator's
accumulated `errors` field; the document behaviour is never changed; on a
successful path resolution the validator is returned unchanged; but on
resolution failure the validator's `errors` field is overwritten with the
resolver's errors (line 25), so the call is not stateless as claimed.
(The request itself has no output position in the embedding because the Go
code never writes through it.) -/
theorem c3_amended_state_effect (v w : ParamValidator) (r : Request)
    (hext : v.ext = w.ext) :
    (ValidateCookieParams v r).2 = (ValidateCookieParams w r).2 ∧
    (ValidateCookieParams v r).1.ext = v.ext ∧
    ((v.ext.findPath r).1 ≠ none → (v.ext.findPath r).2 = none →
      (ValidateCookieParams v r).1 = v) ∧
    ((v.ext.findPath r).1 = none ∨ (v.ext.findPath r).2 ≠ none →
      (ValidateCookieParams v r).1 = { v with errors := (v.ext.findPath r).2 }) := by
  rcases hfp : v.ext.findPath r with ⟨pio, eo⟩
  have hfp' : w.ext.findPath r = (pio, eo) := by rw [← hext]; exact hfp
  refine ⟨?_, ?_, ?_, ?_⟩
  · cases pio with
    | none => simp [ValidateCookieParams, hfp, hfp']
    | some pi =>
      cases eo with
      | some es => simp [ValidateCookieParams, hfp, hfp']
      | none =>
        simp only [ValidateCookieParams, hfp, hfp', ← hext]
        cases hpl : paramLoop v.ext r.cookies
            (v.ext.extractParamsForOperation r pi) with
        | none => rfl
        | some ves =>
          rcases Nat.eq_zero_or_pos ves.length with hz | hpos
          · simp [hz]
          · simp [hpos]
  · cases pio with
    | none => simp [ValidateCookieParams, hfp]
    | some pi =>
      cases eo with
      | some es => simp [ValidateCookieParams, hfp]
      | none =>
        simp only [ValidateCookieParams, hfp]
        cases hpl : paramLoop v.ext r.cookies
            (v.ext.extractParamsForOperation r pi) with
        | none => rfl
        | some ves =>
          rcases Nat.eq_zero_or_pos ves.length with hz | hpos
          · simp [hz]
          · simp [hpos]
  · intro hpi heo
    have heo' : eo = none := heo
    subst heo'
    cases pio with
    | none => exact absurd rfl hpi
    | some pi =>
      simp only [ValidateCookieParams, hfp]
      cases hpl : paramLoop v.ext r.cookies
          (v.ext.extractParamsForOperation r pi) with
      | none => rfl
      | some ves =>
        rcases Nat.eq_zero_or_pos ves.length with hz | hpos
        · simp [hz]
        · simp [hpos]
  · intro hor
    cases pio with
    | none => simp [ValidateCookieParams, hfp]
    | some pi =>
      cases eo with
      | some es => simp [ValidateCookieParams, hfp]
      | none =>
        rcases hor with h1 | h2
        · exact absurd h1 (by simp)
        · exact absurd rfl h2

/-- C3 amended witness: at the failing resolver the final validator is the
initial one with its `errors` field overwritten. -/
theorem c3_amended_witness :
    (ValidateCookieParams vFail (reqWith "a" "b")).1 =
      { vFail with errors := (vFail.ext.findPath (reqWith "a" "b")).2 } :=
  (c3_amended_state_effect vFail vFail (reqWith "a" "b") rfl).2.2.2 (Or.inl rfl)

/-- Helper: a digit is one of the ten digit characters. -/
theorem goIsDigit_cases (c : Char) (h : goIsDigit c = true) :
    c = '0' ∨ c = '1' ∨ c = '2' ∨ c = '3' ∨ c = '4' ∨
    c = '5' ∨ c = '6' ∨ c = '7' ∨ c = '8' ∨ c = '9' := by
  simpa [goIsDigit] using h

/-- Helper: character facts about a digit needed by the scanner lemmas. -/
theorem digit_facts (c : Char) (h : goIsDigit c = true) :
    (c == '_') = false ∧ (c == '.') = false ∧ (goLowerChar c == 'x') = false ∧
    (c == '+') = false ∧ (c == '-') = false := by
  rcases goIsDigit_cases c h with rfl | rfl | rfl | rfl | rfl | rfl | rfl | rfl | rfl | rfl <;>
    exact ⟨rfl, rfl, rfl, rfl, rfl⟩

/-- Helper: `underscoreOK`'s loop accepts any underscore-free input. -/
theorem goUnderscoreLoop_clean (hex : Bool) :
    ∀ (cs : List Char) (saw : Char), (∀ c ∈ cs, (c == '_') = false) →
      (saw == '_') = false → goUnderscoreLoop hex cs saw = true := by
  intro cs
  induction cs with
  | nil => intro saw _ hs; simp [goUnderscoreLoop, hs]
  | cons c t ih =>
    intro saw h hs
    have hc := h c (by simp)
    have ht := fun x hx => h x (List.mem_cons_of_mem c hx)
    cases hd : (goIsDigit c || (hex && goIsHexLetter c)) with
    | true =>
      simp only [goUnderscoreLoop, hd, if_true]
      exact ih '0' ht rfl
    | false =>
      simp only [goUnderscoreLoop, hd, hc, hs, Bool.false_eq_true, if_false]
      exact ih '!' ht rfl

/-- Helper: `underscoreOK` accepts any underscore-free literal. -/
theorem goUnderscoreOK_clean (s : List Char)
    (h : ∀ c ∈ s, (c == '_') = false) : goUnderscoreOK s = true := by
  have hsub : ∀ c ∈ goStripSign s, (c == '_') = false := by
    intro c hc
    apply h
    cases s with
    | nil => simp [goStripSign] at hc
    | cons a r =>
      cases ha : (a == '+' || a == '-') with
      | true =>
        simp only [goStripSign, ha, if_true] at hc
        exact List.mem_cons_of_mem a hc
      | false =>
        simp only [goStripSign, ha, Bool.false_eq_true, if_false] at hc
        exact hc
  rcases hshape : goStripSign s with _ | ⟨c0, _ | ⟨c1, rest⟩⟩
  · simp [goUnderscoreOK, hshape, goUnderscoreLoop]
  · rw [hshape] at hsub
    simp only [goUnderscoreOK, hshape]
    exact goUnderscoreLoop_clean false [c0] '^' hsub rfl
  · rw [hshape] at hsub
    simp only [goUnderscoreOK, hshape]
    cases hx : (c0 == '0' && goLowerChar c1 == 'x') with
    | true =>
      simp only [hx, if_true]
      exact goUnderscoreLoop_clean true rest '0'
        (fun x hx2 => hsub x (by simp [hx2])) rfl
    | false =>
      simp only [hx, Bool.false_eq_true, if_false]
      exact goUnderscoreLoop_clean false (c0 :: c1 :: rest) '^' hsub rfl

/-- Helper: `dropDigits` splits off a prefix of digits. -/
theorem dropDigits_decomp : ∀ cs : List Char,
    ∃ ds, cs = ds ++ dropDigits cs ∧ ∀ c ∈ ds, goIsDigit c = true := by
  intro cs
  induction cs with
  | nil => exact ⟨[], rfl, by simp⟩
  | cons c t ih =>
    cases hd : goIsDigit c with
    | false => exact ⟨[], by simp [dropDigits, hd], by simp⟩
    | true =>
      obtain ⟨ds, he, hds⟩ := ih
      refine ⟨c :: ds, ?_, ?_⟩
      · simp only [dropDigits, hd, if_true, List.cons_append, List.cons.injEq,
          true_and]
        exact he
      · intro x hx
        rcases List.mem_cons.mp hx with rfl | hx2
        · exact hd
        · exact hds x hx2

/-- Helper: a successful `digits1` splits off a nonempty digit prefix. -/
theorem digits1_decomp (cs r : List Char) (h : digits1 cs = some r) :
    ∃ ds, cs = ds ++ r ∧ ds ≠ [] ∧ ∀ c ∈ ds, goIsDigit c = true := by
  cases cs with
  | nil => simp [digits1] at h
  | cons c t =>
    cases hd : goIsDigit c with
    | false => simp [digits1, hd] at h
    | true =>
      simp only [digits1, hd, if_true, Option.some.injEq] at h
      subst h
      obtain ⟨ds, he, hds⟩ := dropDigits_decomp t
      refine ⟨c :: ds, ?_, by simp, ?_⟩
      · simp only [List.cons_append, List.cons.injEq, true_and]
        exact he
      · intro x hx
        rcases List.mem_cons.mp hx with rfl | hx2
        · exact hd
        · exact hds x hx2

/-- Helper: `stripNeg` splits off an optional minus sign. -/
theorem stripNeg_decomp (cs : List Char) :
    ∃ sgn, cs = sgn ++ stripNeg cs ∧ (sgn = [] ∨ sgn = ['-']) := by
  cases cs with
  | nil => exact ⟨[], rfl, Or.inl rfl⟩
  | cons c t =>
    cases hc : (c == '-') with
    | true =>
      have : c = '-' := by simpa using hc
      subst this
      exact ⟨['-'], by simp [stripNeg], Or.inr rfl⟩
    | false => exact ⟨[], by simp [stripNeg, hc], Or.inl rfl⟩

/-- Helper: `stripPM` splits off an optional sign. -/
theorem stripPM_decomp (cs : List Char) :
    ∃ sgn, cs = sgn ++ stripPM cs ∧ (sgn = [] ∨ sgn = ['+'] ∨ sgn = ['-']) := by
  cases cs with
  | nil => exact ⟨[], rfl, Or.inl rfl⟩
  | cons c t =>
    cases hp : (c == '+') with
    | true =>
      have : c = '+' := by simpa using hp
      subst this
      exact ⟨['+'], by simp [stripPM], Or.inr (Or.inl rfl)⟩
    | false =>
      cases hm : (c == '-') with
      | true =>
        have : c = '-' := by simpa using hm
        subst this
        exact ⟨['-'], by simp [stripPM], Or.inr (Or.inr rfl)⟩
      | false => exact ⟨[], by simp [stripPM, hp, hm], Or.inl rfl⟩

/-- Helper: a successful `fracTail` is either the identity or a dot
followed by a nonempty digit run. -/
theorem fracTail_decomp (r1 r3 : List Char) (h : fracTail r1 = some r3) :
    r1 = r3 ∨ ∃ ds2, r1 = '.' :: (ds2 ++ r3) ∧ ds2 ≠ [] ∧
      ∀ c ∈ ds2, goIsDigit c = true := by
  cases r1 with
  | nil =>
    left
    simp only [fracTail, Option.some.injEq] at h
    exact h
  | cons c t =>
    cases hc : (c == '.') with
    | true =>
      right
      have hce : c = '.' := by simpa using hc
      subst hce
      simp only [fracTail] at h
      rw [if_pos hc] at h
      obtain ⟨ds2, ht, hne, hds⟩ := digits1_decomp t r3 h
      exact ⟨ds2, by rw [ht], hne, hds⟩
    | false =>
      left
      simp only [fracTail, hc, Bool.false_eq_true, if_false,
        Option.some.injEq] at h
      exact h

/-- Helper: a successful `expTailOk` is empty or an `e`/`E` marker, an
optional sign, and a nonempty digit run reaching the end. -/
theorem expTailOk_decomp (r3 : List Char) (h : expTailOk r3 = true) :
    r3 = [] ∨ ∃ ech sg2 ds3, r3 = ech :: (sg2 ++ ds3) ∧ (ech = 'e' ∨ ech = 'E') ∧
      (sg2 = [] ∨ sg2 = ['+'] ∨ sg2 = ['-']) ∧ ds3 ≠ [] ∧
      ∀ c ∈ ds3, goIsDigit c = true := by
  cases r3 with
  | nil => exact Or.inl rfl
  | cons e r =>
    right
    cases he : (e == 'e' || e == 'E') with
    | false => simp [expTailOk, he] at h
    | true =>
      have heq : e = 'e' ∨ e = 'E' := by
        rcases Bool.or_eq_true_iff.mp he with h1 | h1
        · exact Or.inl (by simpa using h1)
        · exact Or.inr (by simpa using h1)
      simp only [expTailOk] at h
      rw [if_pos he] at h
      cases hm : digits1 (stripPM r) with
      | none => rw [hm] at h; simp at h
      | some l =>
        cases l with
        | cons a b => rw [hm] at h; simp at h
        | nil =>
          obtain ⟨ds3, hds3eq, hne, hds⟩ := digits1_decomp _ _ hm
          rw [List.append_nil] at hds3eq
          obtain ⟨sg2, hsg, hsgor⟩ := stripPM_decomp r
          refine ⟨e, sg2, ds3, ?_, heq, hsgor, hne, hds⟩
          rw [hsg, ← hds3eq]

/-- Helper: full decomposition of a regex-matching value: an optional
minus sign, a nonempty digit run, an optional dot group, and an optional
exponent group. -/
theorem specMatch_decomp (s : String) (h : specNumberRegexMatch s = true) :
    ∃ sgn ds1 dotp expp, s.toList = sgn ++ ds1 ++ dotp ++ expp ∧
      (sgn = [] ∨ sgn = ['-']) ∧
      ds1 ≠ [] ∧ (∀ c ∈ ds1, goIsDigit c = true) ∧
      (dotp = [] ∨ ∃ ds2, dotp = '.' :: ds2 ∧ ds2 ≠ [] ∧
        ∀ c ∈ ds2, goIsDigit c = true) ∧
      (expp = [] ∨ ∃ ech sg2 ds3, expp = ech :: (sg2 ++ ds3) ∧
        (ech = 'e' ∨ ech = 'E') ∧ (sg2 = [] ∨ sg2 = ['+'] ∨ sg2 = ['-']) ∧
        ds3 ≠ [] ∧ ∀ c ∈ ds3, goIsDigit c = true) := by
  unfold specNumberRegexMatch at h
  cases h1 : digits1 (stripNeg s.toList) with
  | none => rw [h1] at h; simp at h
  | some r1 =>
    rw [h1] at h
    simp only [] at h
    cases h2 : fracTail r1 with
    | none => rw [h2] at h; simp at h
    | some r3 =>
      rw [h2] at h
      simp only [] at h
      obtain ⟨sgn, hs, hsor⟩ := stripNeg_decomp s.toList
      obtain ⟨ds1, hd1, hne1, hdig1⟩ := digits1_decomp _ _ h1
      rcases fracTail_decomp _ _ h2 with heq | ⟨ds2, hr1, hne2, hdig2⟩
      · rcases expTailOk_decomp _ h with hr3nil | ⟨ech, sg2, ds3, hr3, hech, hsg, hne3, hdig3⟩
        · refine ⟨sgn, ds1, [], [], ?_, hsor, hne1, hdig1, Or.inl rfl, Or.inl rfl⟩
          rw [hs, hd1, heq, hr3nil]
          simp
        · refine ⟨sgn, ds1, [], ech :: (sg2 ++ ds3), ?_, hsor, hne1, hdig1,
            Or.inl rfl, Or.inr ⟨ech, sg2, ds3, rfl, hech, hsg, hne3, hdig3⟩⟩
          rw [hs, hd1, heq, hr3]
          simp
      · rcases expTailOk_decomp _ h with hr3nil | ⟨ech, sg2, ds3, hr3, hech, hsg, hne3, hdig3⟩
        · refine ⟨sgn, ds1, '.' :: ds2, [], ?_, hsor, hne1, hdig1,
            Or.inr ⟨ds2, rfl, hne2, hdig2⟩, Or.inl rfl⟩
          rw [hs, hd1, hr1, hr3nil]
          simp
        · refine ⟨sgn, ds1, '.' :: ds2, ech :: (sg2 ++ ds3), ?_, hsor, hne1, hdig1,
            Or.inr ⟨ds2, rfl, hne2, hdig2⟩,
            Or.inr ⟨ech, sg2, ds3, rfl, hech, hsg, hne3, hdig3⟩⟩
          rw [hs, hd1, hr1, hr3]
          simp

/-- Helper: a regex-matching value contains no underscore. -/
theorem specMatch_chars (s : String) (h : specNumberRegexMatch s = true) :
    ∀ c ∈ s.toList, (c == '_') = false := by
  obtain ⟨sgn, ds1, dotp, expp, heq, hsor, _, hdig1, hdot, hexp⟩ := specMatch_decomp s h
  intro c hc
  rw [heq] at hc
  simp only [List.append_assoc, List.mem_append] at hc
  rcases hc with hc | hc | hc | hc
  · rcases hsor with rfl | rfl
    · simp at hc
    · simp only [List.mem_singleton] at hc
      subst hc
      rfl
  · exact (digit_facts c (hdig1 c hc)).1
  · rcases hdot with rfl | ⟨ds2, rfl, _, hdig2⟩
    · simp at hc
    · rcases List.mem_cons.mp hc with rfl | hc2
      · rfl
      · exact (digit_facts c (hdig2 c hc2)).1
  · rcases hexp with rfl | ⟨ech, sg2, ds3, rfl, hech, hsg, _, hdig3⟩
    · simp at hc
    · rcases List.mem_cons.mp hc with rfl | hc2
      · rcases hech with rfl | rfl <;> rfl
      · rcases List.mem_append.mp hc2 with hc3 | hc3
        · rcases hsg with rfl | rfl | rfl
          · simp at hc3
          · simp only [List.mem_singleton] at hc3
            subst hc3
            rfl
          · simp only [List.mem_singleton] at hc3
            subst hc3
            rfl
        · exact (digit_facts c (hdig3 c hc3)).1

/-- Helper: the mantissa loop consumes a digit run and continues on the
rest, with the saw-digit flag raised when the run is nonempty. -/
theorem goMantLoop_digits (b16 : Bool) (ds : List Char)
    (hds : ∀ c ∈ ds, goIsDigit c = true) :
    ∀ (rest : List Char) (m f : Nat) (sd dg : Bool),
      ∃ m' f', goMantLoop b16 (ds ++ rest) m f sd dg =
        goMantLoop b16 rest m' f' sd (dg || !ds.isEmpty) := by
  induction ds with
  | nil => intro rest m f sd dg; exact ⟨m, f, by simp⟩
  | cons d t ih =>
    intro rest m f sd dg
    have hd := hds d (by simp)
    have h1 := (digit_facts d hd).1
    have h2 := (digit_facts d hd).2.1
    obtain ⟨m', f', he⟩ := ih (fun c hc => hds c (by simp [hc]))
      rest (m * (if b16 then 16 else 10) + (d.toNat - '0'.toNat))
      (if sd then f + 1 else f) sd true
    refine ⟨m', f', ?_⟩
    simp only [List.cons_append, goMantLoop, h1, h2, hd, if_true,
      Bool.false_eq_true, if_false]
    exact he.trans (by simp)

/-- Helper: the mantissa loop stops at a non-digit that is neither an
underscore nor a dot (decimal base). -/
theorem goMantLoop_stop (c : Char) (rest : List Char) (m f : Nat) (sd dg : Bool)
    (h1 : (c == '_') = false) (h2 : (c == '.') = false)
    (h3 : goIsDigit c = false) :
    goMantLoop false (c :: rest) m f sd dg = (m, f, dg, c :: rest) := by
  simp [goMantLoop, h1, h2, h3]

/-- Helper: the first dot switches the loop into fractional mode. -/
theorem goMantLoop_dot (b16 : Bool) (rest : List Char) (m f : Nat) (dg : Bool) :
    goMantLoop b16 ('.' :: rest) m f false dg = goMantLoop b16 rest m f true dg := by
  simp [goMantLoop]

/-- Helper: the exponent digit loop consumes a pure digit run entirely. -/
theorem goExpDigits_digits (ds : List Char)
    (hds : ∀ c ∈ ds, goIsDigit c = true) :
    ∀ e, ∃ e', goExpDigits ds e = (e', []) := by
  induction ds with
  | nil => intro e; exact ⟨e, rfl⟩
  | cons d t ih =>
    intro e
    have hd := hds d (by simp)
    obtain ⟨e', he⟩ := ih (fun c hc => hds c (by simp [hc]))
      (e * 10 + (d.toNat - '0'.toNat))
    exact ⟨e', by simpa [goExpDigits, (digit_facts d hd).1, hd] using he⟩

/-- Helper: an optional sign followed by a nonempty digit run is a valid
exponent part. -/
theorem goParseExp_digits (sg2 ds3 : List Char)
    (hsg : sg2 = [] ∨ sg2 = ['+'] ∨ sg2 = ['-']) (hne : ds3 ≠ [])
    (hds : ∀ c ∈ ds3, goIsDigit c = true) :
    ∃ e, goParseExp (sg2 ++ ds3) = some e := by
  cases ds3 with
  | nil => exact absurd rfl hne
  | cons d t =>
    have hd := hds d (by simp)
    have hfacts := digit_facts d hd
    have hsign : (goExpSign (sg2 ++ d :: t)).2 = d :: t := by
      rcases hsg with rfl | rfl | rfl
      · simp [goExpSign, hfacts.2.2.2.1, hfacts.2.2.2.2]
      · simp [goExpSign]
      · simp [goExpSign]
    obtain ⟨e', he⟩ := goExpDigits_digits (d :: t) hds 0
    refine ⟨(goExpSign (sg2 ++ d :: t)).1 * e', ?_⟩
    simp only [goParseExp, hsign, hd, if_true, he]

/-- Helper: the mantissa loop over digit run, optional dot group and a
stopping tail yields the saw-digit flag and leaves the tail unconsumed. -/
theorem goMantLoop_full (ds1 dotp expp : List Char)
    (hne1 : ds1 ≠ []) (hdig1 : ∀ c ∈ ds1, goIsDigit c = true)
    (hdot : dotp = [] ∨ ∃ ds2, dotp = '.' :: ds2 ∧ ds2 ≠ [] ∧
      ∀ c ∈ ds2, goIsDigit c = true)
    (hstop : expp = [] ∨ ∃ ech r', expp = ech :: r' ∧ (ech == '_') = false ∧
      (ech == '.') = false ∧ goIsDigit ech = false) :
    ∃ m f, goMantLoop false (ds1 ++ dotp ++ expp) 0 0 false false =
      (m, f, true, expp) := by
  have hflag1 : ∀ dg : Bool, (dg || !ds1.isEmpty) = true := by
    intro dg
    cases ds1 with
    | nil => exact absurd rfl hne1
    | cons a b => simp
  have hend : ∀ (m f : Nat) (sd : Bool),
      goMantLoop false expp m f sd true = (m, f, true, expp) := by
    intro m f sd
    rcases hstop with rfl | ⟨ech, r', rfl, he1, he2, he3⟩
    · rfl
    · exact goMantLoop_stop ech r' m f sd true he1 he2 he3
  rcases hdot with rfl | ⟨ds2, rfl, hne2, hdig2⟩
  · obtain ⟨m1, f1, he1⟩ := goMantLoop_digits false ds1 hdig1 expp 0 0 false false
    refine ⟨m1, f1, ?_⟩
    rw [List.append_nil, he1, hflag1, hend]
  · obtain ⟨m1, f1, he1⟩ := goMantLoop_digits false ds1 hdig1
      ('.' :: (ds2 ++ expp)) 0 0 false false
    obtain ⟨m2, f2, he2⟩ := goMantLoop_digits false ds2 hdig2 expp m1 f1 true true
    refine ⟨m2, f2, ?_⟩
    have hassoc : ds1 ++ ('.' :: ds2) ++ expp = ds1 ++ ('.' :: (ds2 ++ expp)) := by
      simp
    rw [hassoc, he1, hflag1, goMantLoop_dot, he2]
    simp only [Bool.true_or]
    exact hend m2 f2 true

/-- Helper: the decimal branch of `readFloat` accepts every decomposed
regex shape. -/
theorem goReadFloatDec_shape (ds1 dotp expp : List Char)
    (hne1 : ds1 ≠ []) (hdig1 : ∀ c ∈ ds1, goIsDigit c = true)
    (hdot : dotp = [] ∨ ∃ ds2, dotp = '.' :: ds2 ∧ ds2 ≠ [] ∧
      ∀ c ∈ ds2, goIsDigit c = true)
    (hexp : expp = [] ∨ ∃ ech sg2 ds3, expp = ech :: (sg2 ++ ds3) ∧
      (ech = 'e' ∨ ech = 'E') ∧ (sg2 = [] ∨ sg2 = ['+'] ∨ sg2 = ['-']) ∧
      ds3 ≠ [] ∧ ∀ c ∈ ds3, goIsDigit c = true) :
    ∃ fp, goReadFloatDec (ds1 ++ dotp ++ expp) = some fp := by
  have hstop : expp = [] ∨ ∃ ech r', expp = ech :: r' ∧ (ech == '_') = false ∧
      (ech == '.') = false ∧ goIsDigit ech = false := by
    rcases hexp with rfl | ⟨ech, sg2, ds3, rfl, hech, _, _, _⟩
    · exact Or.inl rfl
    · refine Or.inr ⟨ech, sg2 ++ ds3, rfl, ?_⟩
      rcases hech with rfl | rfl <;> exact ⟨rfl, rfl, rfl⟩
  obtain ⟨m, f, hm⟩ := goMantLoop_full ds1 dotp expp hne1 hdig1 hdot hstop
  rcases hexp with rfl | ⟨ech, sg2, ds3, rfl, hech, hsg, hne3, hdig3⟩
  · rw [List.append_nil] at hm
    exact ⟨⟨m, f, 0, false⟩, by simp [goReadFloatDec, hm]⟩
  · obtain ⟨e, hpe⟩ := goParseExp_digits sg2 ds3 hsg hne3 hdig3
    have hlow : goLowerChar ech = 'e' := by
      rcases hech with rfl | rfl <;> rfl
    rw [List.append_assoc] at hm
    exact ⟨⟨m, f, e, false⟩, by simp [goReadFloatDec, hm, hlow, hpe]⟩

/-- Helper: when no `0x` prefix is present after the sign, `readFloat`
takes its decimal branch. -/
theorem goReadFloat_eq_dec (s : List Char)
    (hc : ∀ c0 c1 c2 rest, goStripSign s = c0 :: c1 :: c2 :: rest →
      (c0 == '0' && goLowerChar c1 == 'x') = false) :
    goReadFloat s = goReadFloatDec (goStripSign s) := by
  rcases h1 : goStripSign s with _ | ⟨c0, _ | ⟨c1, _ | ⟨c2, rest⟩⟩⟩
  · simp [goReadFloat, h1]
  · simp [goReadFloat, h1]
  · simp [goReadFloat, h1]
  · simp [goReadFloat, h1, hc c0 c1 c2 rest h1]

/-- Helper: every value matching the spec's numeric regex is accepted by
readFloat's scanner (syntax only; the range check is separate). -/
theorem specMatch_readFloat (s : String) (h : specNumberRegexMatch s = true) :
    ∃ fp, goReadFloat s.toList = some fp := by
  obtain ⟨sgn, ds1, dotp, expp, heq, hsor, hne1, hdig1, hdot, hexp⟩ :=
    specMatch_decomp s h
  have hstrip : goStripSign s.toList = ds1 ++ dotp ++ expp := by
    rw [heq]
    rcases hsor with rfl | rfl
    · simp only [List.nil_append]
      cases ds1 with
      | nil => exact absurd rfl hne1
      | cons d t =>
        have hf := digit_facts d (hdig1 d (by simp))
        simp [goStripSign, hf.2.2.2.1, hf.2.2.2.2]
    · simp [goStripSign]
  have hcnd : ∀ c0 c1 c2 rest, goStripSign s.toList = c0 :: c1 :: c2 :: rest →
      (c0 == '0' && goLowerChar c1 == 'x') = false := by
    intro c0 c1 c2 rest hsh
    rw [hstrip] at hsh
    have hc1 : goIsDigit c1 = true ∨ c1 = '.' ∨ c1 = 'e' ∨ c1 = 'E' := by
      cases ds1 with
      | nil => exact absurd rfl hne1
      | cons d t =>
        cases t with
        | cons d2 t2 =>
          simp only [List.cons_append, List.append_assoc, List.cons.injEq] at hsh
          obtain ⟨_, h2, _⟩ := hsh
          subst h2
          exact Or.inl (hdig1 d2 (by simp))
        | nil =>
          rcases hdot with rfl | ⟨ds2, rfl, _, _⟩
          · rcases hexp with rfl | ⟨ech, sg2, ds3, rfl, hech, _, _, _⟩
            · simp at hsh
            · simp only [List.cons_append, List.nil_append, List.append_nil,
                List.cons.injEq] at hsh
              obtain ⟨_, h2, _⟩ := hsh
              subst h2
              rcases hech with rfl | rfl
              · exact Or.inr (Or.inr (Or.inl rfl))
              · exact Or.inr (Or.inr (Or.inr rfl))
          · simp only [List.cons_append, List.nil_append, List.append_assoc,
              List.cons.injEq] at hsh
            obtain ⟨_, h2, _⟩ := hsh
            subst h2
            exact Or.inr (Or.inl rfl)
    rcases hc1 with hd | rfl | rfl | rfl
    · have hx := (digit_facts c1 hd).2.2.1
      simp [hx]
    · have hx : (goLowerChar '.' == 'x') = false := rfl
      simp [hx]
    · have hx : (goLowerChar 'e' == 'x') = false := rfl
      simp [hx]
    · have hx : (goLowerChar 'E' == 'x') = false := rfl
      simp [hx]
  obtain ⟨fp, hdec⟩ := goReadFloatDec_shape ds1 dotp expp hne1 hdig1 hdot hexp
  refine ⟨fp, ?_⟩
  rw [goReadFloat_eq_dec s.toList hcnd, hstrip]
  exact hdec

/-- C7 amended: every regex-matching value is accepted by `ParseFloat`'s
scanner, and when it is also inside float64's finite range the integer- and
number-typed checks add no violation; a value `ParseFloat` rejects (syntax
error or range error, e.g. `"abc"` or `"1e999"`) yields exactly one
`NotNumber` violation recording the lower-cased value. -/
theorem c7_amended_numeric :
    (∀ (ext : Externals) (p : Param) (sch : GoSchema) (s : String),
      specNumberRegexMatch s = true → goFloatInRange s = true →
      checkTag ext p sch s "integer" = some [] ∧
      checkTag ext p sch s "number" = some []) ∧
    (∀ (ext : Externals) (p : Param) (sch : GoSchema) (s : String),
      goParseFloatOk s = false →
      checkTag ext p sch s "integer" =
        some [ValidationError.violation p (goToLower s) Reason.NotNumber sch] ∧
      checkTag ext p sch s "number" =
        some [ValidationError.violation p (goToLower s) Reason.NotNumber sch]) ∧
    (∀ s : String, specNumberRegexMatch s = true →
      (goReadFloat s.toList).isSome = true) := by
  refine ⟨?_, ?_, ?_⟩
  · intro ext p sch s hregex hrange
    have hu : goUnderscoreOK s.toList = true :=
      goUnderscoreOK_clean _ (specMatch_chars s hregex)
    have hok : goParseFloatOk s = true := by
      rw [goParseFloatOk]
      rw [goFloatInRange] at hrange
      cases hrf : goReadFloat s.toList with
      | none => rw [hrf] at hrange; simp at hrange
      | some fp =>
        rw [hrf] at hrange
        simp only [] at hrange
        simp only []
        rw [hu, hrange]
        simp
    constructor <;> simp [checkTag, hok]
  · intro ext p sch s hbad
    constructor <;> simp [checkTag, hbad]
  · intro s hregex
    obtain ⟨fp, hfp⟩ := specMatch_readFloat s hregex
    rw [hfp]
    rfl

/-- C7 amended witness: the amended statement instantiated at the
in-range value `"123.45e6"` and at the rejected value `"abc"`. -/
theorem c7_amended_witness :
    checkTag (extOf []) pNum schNum "123.45e6" "number" = some [] ∧
    checkTag (extOf []) pNum schNum "abc" "number" =
      some [ValidationError.violation pNum "abc" Reason.NotNumber schNum] :=
  ⟨(c7_amended_numeric.1 (extOf []) pNum schNum "123.45e6" rfl rfl).2,
   (c7_amended_numeric.2.1 (extOf []) pNum schNum "abc" rfl).2⟩
